import Mathlib

/-!
Verification development for the mrenv repository: a shallow embedding of the
environment resolution pipeline (file discovery, parsing, variable expansion,
server/client filtering, schema validation, guarded access) together with
theorems settling the specification claims.

JavaScript objects holding environment variables are embedded as insertion
ordered association lists with unique keys: assigning to an existing key
updates the value in place, assigning to a fresh key appends.
-/

namespace Mrenv

/-- Insertion-ordered string-keyed map, the embedding of a JS object used as a
record of environment variables. -/
abbrev JsObj (α : Type) := List (String × α)

/-- Property read on a JS object: first (and, for objects built by the model,
only) binding of the key. -/
def getVal {α : Type} : JsObj α → String → Option α
  | [], _ => none
  | (k₁, v₁) :: rest, k => if k₁ = k then some v₁ else getVal rest k

/-- Property write on a JS object: updates an existing key in place, appends a
new key at the end (JS insertion-order semantics). -/
def setVal {α : Type} : JsObj α → String → α → JsObj α
  | [], k, v => [(k, v)]
  | (k₁, v₁) :: rest, k, v =>
      if k₁ = k then (k₁, v) :: rest else (k₁, v₁) :: setVal rest k v

/-- Key list of a JS object, in insertion order (the embedding of
Object.keys). -/
def keysOf {α : Type} (m : JsObj α) : List String := m.map Prod.fst

/-- Object.assign-style merge: writes every binding of the second object into
the first, in order, so the second object wins on key conflicts. -/
def objectAssign {α : Type} (m additions : JsObj α) : JsObj α :=
  additions.foldl (fun acc kv => setVal acc kv.1 kv.2) m

/-- Character class of the JS whitespace trimmed by String.prototype.trim, for
the ASCII inputs the model manipulates. -/
def isJsSpace (c : Char) : Bool :=
  c = ' ' ∨ c = '\t' ∨ c = '\n' ∨ c = '\r' ∨ c = '\x0b' ∨ c = '\x0c'

/-- Embedding of String.prototype.trim on the character list. -/
def trimChars (cs : List Char) : List Char :=
  ((cs.dropWhile isJsSpace).reverse.dropWhile isJsSpace).reverse

/-- Embedding of String.prototype.trim. -/
def jsTrim (s : String) : String := ⟨trimChars s.data⟩

/-- Splits file content into lines at newline characters, the embedding of
content.split with a newline separator. -/
def splitNewlines (s : String) : List String :=
  (s.data.splitOn '\n').map fun cs => ⟨cs⟩

/-- True when the first string starts with the second, the embedding of
String.prototype.startsWith. -/
def jsStartsWith (s pre : String) : Bool := pre.data.isPrefixOf s.data

/-- True when the first string ends with the second, the embedding of
String.prototype.endsWith. -/
def jsEndsWith (s suffix : String) : Bool := suffix.data.reverse.isPrefixOf s.data.reverse

/-- Lower-cases ASCII letters, the embedding of String.prototype.toLowerCase on
the ASCII inputs the model manipulates. -/
def jsToLower (s : String) : String := ⟨s.data.map Char.toLower⟩

/-- Strips one matching pair of surrounding double or single quotes, the
embedding of the value.substring(1, value.length - 1) step guarded by the
startsWith/endsWith checks shared by src/core/envReader.ts parseEnvFile and
src/parser.ts parse. A one-character quote string is left unchanged because
JS substring(1, 0) swaps its arguments. -/
def stripMatchingQuotes (value : String) : String :=
  if (jsStartsWith value "\"" ∧ jsEndsWith value "\"") ∨
      (jsStartsWith value "\x27" ∧ jsEndsWith value "\x27") then
    if 2 ≤ value.data.length then ⟨(value.data.drop 1).dropLast⟩ else value
  else value

namespace EnvReader

/-- Embedding of defaultPatterns from src/core/envReader.ts: the default
environment file patterns with their priority numbers. -/
def defaultPatterns : List (String × Nat) :=
  [(".env.local", 1), (".env.development.local", 2), (".env.test.local", 3),
   (".env.production.local", 4), (".env.development", 5), (".env.test", 6),
   (".env.production", 7), (".env", 8)]

/-- Stable insertion of a pattern into a priority-sorted list, placing it after
entries of smaller or equal priority. -/
def insertByPriority (x : String × Nat) : List (String × Nat) → List (String × Nat)
  | [] => [x]
  | y :: ys => if y.2 ≤ x.2 then y :: insertByPriority x ys else x :: y :: ys

/-- Stable ascending sort by priority number, the embedding of the
Array.prototype.sort call with comparator a.priority - b.priority. -/
def sortByPriority (l : List (String × Nat)) : List (String × Nat) :=
  l.foldr insertByPriority []

/-- Embedding of EnvReader.getEnvFiles: custom paths win when nonempty;
otherwise the default patterns are sorted by ascending priority number and
the excluded patterns are dropped. -/
def getEnvFiles (customPaths excludePatterns : Option (List String)) : List String :=
  match customPaths with
  | some ps =>
      if 0 < ps.length then ps else
        match excludePatterns with
        | some ex => ((sortByPriority defaultPatterns).map Prod.fst).filter
            (fun pat => ¬ ex.contains pat)
        | none => (sortByPriority defaultPatterns).map Prod.fst
  | none =>
      match excludePatterns with
      | some ex => ((sortByPriority defaultPatterns).map Prod.fst).filter
          (fun pat => ¬ ex.contains pat)
      | none => (sortByPriority defaultPatterns).map Prod.fst

/-- Embedding of the replacement callback of parseEnvFile, the JS expression
env[varName] || process.env[varName] || "": the first truthy (nonempty)
value wins and an unresolvable name yields the empty string. -/
def fallbackLookup (fileEnv procEnv : JsObj String) (name : String) : String :=
  match getVal fileEnv name with
  | some v => if v ≠ "" then v else
      match getVal procEnv name with
      | some w => if w ≠ "" then w else ""
      | none => ""
  | none =>
      match getVal procEnv name with
      | some w => if w ≠ "" then w else ""
      | none => ""

/-- Fuelled scanner for the global regex replace of braced references in
parseEnvFile: every occurrence of a dollar-brace reference with a nonempty
name is replaced by the callback result; unterminated or empty braces leave
the dollar sign in place and scanning resumes at the following character,
as the regex engine does after a failed match. The fuel always covers the
input length at every call site. -/
def replaceBracedAux (lookupFn : String → String) : Nat → List Char → List Char
  | 0, cs => cs
  | _ + 1, [] => []
  | fuel + 1, '$' :: rest =>
      match rest with
      | '{' :: rest₁ =>
          let inner := rest₁.takeWhile (fun c => c ≠ '}')
          (match rest₁.dropWhile (fun c => c ≠ '}') with
           | '}' :: rest₂ =>
               if inner.isEmpty then '$' :: replaceBracedAux lookupFn fuel rest
               else (lookupFn ⟨inner⟩).data ++ replaceBracedAux lookupFn fuel rest₂
           | _ => '$' :: replaceBracedAux lookupFn fuel rest)
      | _ => '$' :: replaceBracedAux lookupFn fuel rest
  | fuel + 1, c :: rest => c :: replaceBracedAux lookupFn fuel rest

/-- Embedding of value.replace over the braced-reference regex with the given
replacement callback. -/
def replaceBraced (lookupFn : String → String) (s : String) : String :=
  ⟨replaceBracedAux lookupFn s.data.length s.data⟩

/-- Embedding of the line regex of parseEnvFile: at least one non-equals
character, an equals sign, then the rest of the line. -/
def matchKeyValue (line : String) : Option (String × String) :=
  let cs := line.data
  let key := cs.takeWhile (fun c => c ≠ '=')
  match cs.dropWhile (fun c => c ≠ '=') with
  | '=' :: valuePart => if key.isEmpty then none else some (⟨key⟩, ⟨valuePart⟩)
  | _ => none

/-- Embedding of EnvReader.parseEnvFile: splits the content into lines, skips
blanks and comments, extracts key=value, trims, strips one pair of matching
quotes, expands braced references against the variables parsed so far with
ambient process variables as fallback, and stores the binding. -/
def parseEnvFile (procEnv : JsObj String) (content : String) : JsObj String :=
  (splitNewlines content).foldl
    (fun env line =>
      let trimmedLine := jsTrim line
      if trimmedLine = "" ∨ jsStartsWith trimmedLine "#" then env
      else
        match matchKeyValue trimmedLine with
        | none => env
        | some (rawKey, rawValue) =>
            let key := jsTrim rawKey
            let value := stripMatchingQuotes (jsTrim rawValue)
            let expanded := replaceBraced (fallbackLookup env procEnv) value
            setVal env key expanded)
    []

/-- Embedding of a Node fs.FSWatcher tracked by the EnvReader instance. -/
structure Watcher where
  /-- The file path that was passed to fs.watch when the watcher was created. -/
  watchedFile : String
  /-- The value of the untyped path property that closeWatcher reads from the
  watcher object; Node FSWatcher instances expose no such property, so the
  read always yields JS undefined, embedded as none. -/
  pathProp : Option String := none
deriving DecidableEq, Repr

/-- Mutable state of the EnvReader singleton: the per-file parse cache and the
list of active watchers. -/
structure ReaderState where
  envCache : JsObj (JsObj String)
  watchers : List Watcher
deriving DecidableEq, Repr

/-- Fresh EnvReader state: empty cache, no watchers. -/
def initialReaderState : ReaderState := ⟨[], []⟩

/-- Removes the first element satisfying the predicate, the embedding of
Array.prototype.findIndex followed by splice. -/
def removeFirst {α : Type} (p : α → Bool) : List α → List α
  | [] => []
  | x :: xs => if p x then xs else x :: removeFirst p xs

/-- Embedding of EnvReader.closeWatcher: finds the first watcher whose path
property equals the file path, closes it and removes it from the list. -/
def closeWatcher (st : ReaderState) (filePath : String) : ReaderState :=
  { st with watchers := removeFirst (fun w => w.pathProp = some filePath) st.watchers }

/-- Embedding of EnvReader.setupWatcher: closes any existing watcher for the
file, then registers a fresh fs.watch watcher for it. -/
def setupWatcher (st : ReaderState) (filePath : String) : ReaderState :=
  let st₁ := closeWatcher st filePath
  { st₁ with watchers := st₁.watchers ++ [Watcher.mk filePath none] }

/-- Embedding of EnvReader.closeAllWatchers: closes every watcher and empties
the list. -/
def closeAllWatchers (st : ReaderState) : ReaderState :=
  { st with watchers := [] }

/-- Embedding of EnvReader.readEnvFiles over a filesystem assigning contents to
existing paths: iterates the selected files in order, parses existing ones
(re-reading when autoReload is set, registering a watcher per read file in
that case) and merges each parsed mapping into the accumulator so that later
files override earlier ones. -/
def readEnvFiles (fs : String → Option String) (procEnv : JsObj String)
    (st : ReaderState) (customPaths excludePatterns : Option (List String))
    (autoReload : Bool) : JsObj String × ReaderState :=
  (getEnvFiles customPaths excludePatterns).foldl
    (fun acc file =>
      match fs file with
      | none => acc
      | some content =>
          let needRead := getVal acc.2.envCache file = none ∨ autoReload
          let newCache := setVal acc.2.envCache file (parseEnvFile procEnv content)
          let st₁ := if needRead then { acc.2 with envCache := newCache } else acc.2
          let st₂ := if needRead ∧ autoReload then setupWatcher st₁ file else st₁
          (objectAssign acc.1 ((getVal st₂.envCache file).getD []), st₂))
    (([] : JsObj String), st)

end EnvReader

namespace Parser

/-- Character class of the word characters in the simple reference alternative
of the expansion regex in src/parser.ts: ASCII letters, digits and
underscore. -/
def isWordChar (c : Char) : Bool := c.isAlpha ∨ c.isDigit ∨ c = '_'

/-- Splits a character list at every non-overlapping occurrence of the
colon-dash default separator, the embedding of the String.prototype.split
call on that separator (and of the includes test: two or more parts mean
the separator occurs). -/
def splitColonDash : List Char → List (List Char)
  | [] => [[]]
  | ':' :: '-' :: rest => [] :: splitColonDash rest
  | c :: rest =>
      match splitColonDash rest with
      | [] => [[c]]
      | part :: parts => (c :: part) :: parts

/-- Embedding of the braced-reference replacement callback in
expandEnvironmentVariables of src/parser.ts: a name containing the
colon-dash separator is split into name and default, with the scope value
substituted whenever the name is bound (even to the empty string) and the
default text otherwise; a plain name is substituted when bound and the
original matched text is restored when not. -/
def handleBracketed (env : JsObj String) (inner : List Char) : List Char :=
  match splitColonDash inner with
  | varName :: defaultValue :: _ =>
      match getVal env ⟨varName⟩ with
      | some v => v.data
      | none => defaultValue
  | _ =>
      match getVal env ⟨inner⟩ with
      | some v => v.data
      | none => '$' :: '{' :: (inner ++ ['}'])

/-- Fuelled scanner embedding the global regex replace of
expandEnvironmentVariables in src/parser.ts, handling the braced
alternative (with optional default clause) and the simple word alternative;
failed matches leave the dollar sign in place and scanning resumes at the
next character, as the regex engine does. The fuel always covers the input
length at every call site. -/
def expandAux (env : JsObj String) : Nat → List Char → List Char
  | 0, cs => cs
  | _ + 1, [] => []
  | fuel + 1, '$' :: rest =>
      match rest with
      | '{' :: rest₁ =>
          let inner := rest₁.takeWhile (fun c => c ≠ '}')
          (match rest₁.dropWhile (fun c => c ≠ '}') with
           | '}' :: rest₂ =>
               if inner.isEmpty then '$' :: expandAux env fuel rest
               else handleBracketed env inner ++ expandAux env fuel rest₂
           | _ => '$' :: expandAux env fuel rest)
      | _ =>
          let word := rest.takeWhile isWordChar
          if word.isEmpty then '$' :: expandAux env fuel rest
          else
            match getVal env ⟨word⟩ with
            | some v => v.data ++ expandAux env fuel (rest.drop word.length)
            | none => ('$' :: word) ++ expandAux env fuel (rest.drop word.length)
  | fuel + 1, c :: rest => c :: expandAux env fuel rest

/-- Embedding of expandEnvironmentVariables from src/parser.ts: replaces every
dollar reference in the value against the given expansion scope. -/
def expandEnvironmentVariables (value : String) (env : JsObj String) : String :=
  ⟨expandAux env value.data.length value.data⟩

/-- Character class of the key pattern in the line regex of parse in
src/parser.ts: word characters, dot and hyphen. -/
def isParserKeyChar (c : Char) : Bool := isWordChar c ∨ c = '.' ∨ c = '-'

/-- True when the rest of a line after the value group satisfies the optional
trailing-comment group followed by the end anchor: either nothing remains
or, after optional whitespace, a hash comment runs to the end of the
line. -/
def tailCommentOrEnd (cs : List Char) : Bool :=
  match cs with
  | [] => true
  | _ =>
      match cs.dropWhile isJsSpace with
      | '#' :: _ => true
      | _ => false

/-- Embedding of the value group of the line regex of parse in src/parser.ts:
the double-quoted and single-quoted alternatives are tried first and only
kept when the rest of the line is a trailing comment or the end anchor;
otherwise the engine backtracks to the run of non-hash characters. -/
def matchValuePart (cs : List Char) : List Char :=
  let tryQuoted : Char → Option (List Char) := fun q =>
    match cs with
    | c :: t =>
        if c = q then
          let inner := t.takeWhile (fun d => d ≠ q)
          match t.dropWhile (fun d => d ≠ q) with
          | d :: rest =>
              if d = q ∧ tailCommentOrEnd rest then some (q :: (inner ++ [q]))
              else none
          | [] => none
        else none
    | [] => none
  match tryQuoted '"' with
  | some v => v
  | none =>
      match tryQuoted '\x27' with
      | some v => v
      | none => cs.takeWhile (fun c => c ≠ '#')

/-- Embedding of the line regex of parse in src/parser.ts: optional leading
whitespace, a nonempty key of word, dot or hyphen characters, optional
whitespace around the equals sign, then the value group. -/
def matchParserLine (line : String) : Option (String × String) :=
  let cs₁ := line.data.dropWhile isJsSpace
  let key := cs₁.takeWhile isParserKeyChar
  if key.isEmpty then none
  else
    match (cs₁.drop key.length).dropWhile isJsSpace with
    | '=' :: afterEq => some (⟨key⟩, ⟨matchValuePart (afterEq.dropWhile isJsSpace)⟩)
    | _ => none

/-- Splits content into lines at carriage-return–newline or bare newline, the
embedding of the split on the line-break regex in parse: pieces before a
newline drop one trailing carriage return. -/
def splitLinesCRLF (s : String) : List String :=
  let pieces := s.data.splitOn '\n'
  let dropCR : List Char → List Char := fun cs =>
    match cs.reverse with
    | '\r' :: rest => rest.reverse
    | _ => cs
  match pieces.reverse with
  | [] => []
  | last :: earlier => ((earlier.map dropCR).reverse.map fun cs => (⟨cs⟩ : String)) ++ [⟨last⟩]

/-- Embedding of parse from src/parser.ts: skips comments and blank lines,
matches each remaining line against the line regex, trims the captured
value, strips one pair of matching quotes and, when expansion is enabled,
expands references against the variables parsed so far overridden by the
expansion environment (by default the ambient process variables). -/
def parse (envForExpansion : JsObj String) (expandVariables : Bool)
    (content : String) : JsObj String :=
  (splitLinesCRLF content).foldl
    (fun result line =>
      if jsStartsWith (jsTrim line) "#" ∨ jsTrim line = "" then result
      else
        match matchParserLine line with
        | none => result
        | some (key, rawValue) =>
            let value := stripMatchingQuotes (jsTrim rawValue)
            let value := if expandVariables then
                expandEnvironmentVariables value (objectAssign result envForExpansion)
              else value
            setVal result key value)
    []

end Parser

namespace IndexTs

/-- Embedding of loadEnvFile from src/index.ts: loads the generic file, the
local file, the environment-specific file and its local variant in that
order, merging each parsed mapping with later files overriding earlier ones
when override is set (and first-writer-wins otherwise). -/
def loadEnvFile (fs : String → Option String) (procEnv : JsObj String)
    (environment : String) (expandVariables override : Bool) : JsObj String :=
  let envFiles := [".env", ".env.local", ".env." ++ environment,
    ".env." ++ environment ++ ".local"].filter (fun f => f ≠ "")
  envFiles.foldl
    (fun envVars file =>
      match fs file with
      | none => envVars
      | some content =>
          let parsed := Parser.parse procEnv expandVariables content
          parsed.foldl
            (fun acc kv =>
              if override ∨ getVal acc kv.1 = none then setVal acc kv.1 kv.2 else acc)
            envVars)
    []

end IndexTs

/-- Embedding of the JS values produced by the schema validator and the
accessors: strings, numbers, booleans, undefined, and parsed JSON payloads
kept opaque. -/
inductive JsVal where
  | vStr (s : String)
  | vNum (n : Int)
  | vBool (b : Bool)
  | vUndef
  | vJson (payload : String)
deriving DecidableEq, Repr

/-- Model of the Number builtin restricted to optionally negated decimal
integer literals: none embeds NaN, and the empty string evaluates to zero
as in JS. Fractional and exponent forms are outside the model; no claim in
this development depends on them. -/
def jsNumberInt (s : String) : Option Int :=
  let digitsVal : List Char → Option Nat := fun cs =>
    if cs.isEmpty then none
    else cs.foldl
      (fun acc c =>
        match acc with
        | none => none
        | some n => if c.isDigit then some (n * 10 + (c.toNat - 48)) else none)
      (some 0)
  match s.data with
  | [] => some 0
  | '-' :: rest => (digitsVal rest).map (fun n => -(n : Int))
  | cs => (digitsVal cs).map (fun n => (n : Int))

/-- Model of the JSON.parse builtin restricted to the literals the schema
layer can meet: the boolean literals, integer literals, and double-quoted
strings; anything else is kept as an opaque parsed payload when it opens
like a composite JSON value and embeds a parse throw (none) otherwise. No
claim in this development depends on the composite cases. -/
def jsonParse (s : String) : Option JsVal :=
  if s = "true" then some (.vBool true)
  else if s = "false" then some (.vBool false)
  else
    match jsNumberInt s with
    | some n => if s ≠ "" then some (.vNum n) else none
    | none =>
        match s.data with
        | '"' :: rest =>
            if rest ≠ [] ∧ rest.getLast? = some '"' ∧
                ¬ (rest.dropLast.contains '"') then some (.vStr ⟨rest.dropLast⟩)
            else none
        | '{' :: _ => some (.vJson s)
        | '[' :: _ => some (.vJson s)
        | _ => none

namespace Schema

/-- Embedding of one entry of the descriptor-table schema form of
src/core/types.ts: declared type tag, required flag, optional default and
optional validator predicate. -/
structure SchemaDef where
  type : String
  required : Bool := false
  default : Option JsVal := none
  validate : Option (JsVal → Bool) := none

/-- Embedding of SchemaValidator.convertValue from src/core/schema.ts: an
undefined input stays undefined; strings are identity; numbers go through
the Number builtin with NaN raising; booleans are a case-insensitive
membership test in the truthy literal set, never raising; json goes
through JSON.parse with malformed input raising; unknown type tags return
the raw string. -/
def convertValue (value : Option String) (type : String) : Except String JsVal :=
  match value with
  | none => .ok .vUndef
  | some v =>
      if type = "string" then .ok (.vStr v)
      else if type = "number" then
        match jsNumberInt v with
        | some n => .ok (.vNum n)
        | none => .error ("Cannot convert \x27" ++ v ++ "\x27 to number")
      else if type = "boolean" then
        .ok (.vBool (["true", "1", "yes"].contains (jsToLower v)))
      else if type = "json" then
        match jsonParse v with
        | some j => .ok j
        | none => .error ("Unexpected token in JSON: " ++ v)
      else .ok (.vStr v)

/-- Embedding of SchemaValidator.validateWithCustomSchema from
src/core/schema.ts: walks the schema entries in order; a required entry
with a missing raw value records a missing-variable error; a missing value
with a declared default stores the default; otherwise the raw value is
coerced (errors caught and recorded) and the optional validator predicate
may record a failure; returns whether the error list stayed empty, the
errors, and the typed mapping. -/
def validateWithCustomSchema (env : JsObj String)
    (schema : List (String × SchemaDef)) : Bool × List String × JsObj JsVal :=
  let step := fun (acc : List String × JsObj JsVal) (entry : String × SchemaDef) =>
    let key := entry.1
    let d := entry.2
    let value := getVal env key
    if d.required ∧ value = none then
      (acc.1 ++ ["Missing required environment variable: " ++ key], acc.2)
    else if value = none ∧ d.default ≠ none then
      (acc.1, setVal acc.2 key (d.default.getD .vUndef))
    else
      match convertValue value d.type with
      | .ok cv =>
          let typed := setVal acc.2 key cv
          (match d.validate with
           | some f =>
               if f cv then (acc.1, typed)
               else (acc.1 ++ ["Invalid value for environment variable: " ++ key], typed)
           | none => (acc.1, typed))
      | .error msg =>
          (acc.1 ++ ["Error parsing environment variable " ++ key ++ ": " ++ msg], acc.2)
  let folded := schema.foldl step ([], [])
  (folded.1.isEmpty, folded.1, folded.2)

end Schema

namespace CoreCreateEnv

/-- Embedding of the protected-list and public-prefix filtering of createEnv
in src/core/createEnv.ts: on the client a nonempty protected list removes
its keys, and then a truthy public prefix keeps only keys starting with
it; on the server both filters are skipped. -/
def filterEnvVars (isClient : Bool) (protectedEnv : Option (List String))
    (publicPfx : Option String) (processEnv : JsObj String) : JsObj String :=
  let protectedList := protectedEnv.getD []
  let filtered₁ :=
    if isClient ∧ 0 < protectedList.length then
      processEnv.filter (fun kv => ¬ protectedList.contains kv.1)
    else processEnv
  match publicPfx with
  | some p =>
      if p ≠ "" ∧ isClient then filtered₁.filter (fun kv => jsStartsWith kv.1 p)
      else filtered₁
  | none => filtered₁

/-- Observable completion of a call to createEnv in src/core/createEnv.ts:
either the call throws, or it returns the typed mapping after invoking the
configured validation-error handler with the recorded messages. -/
inductive CoreOutcome where
  | thrown (msg : String)
  | returned (typedEnv : JsObj JsVal) (handlerCalls : List String)
deriving DecidableEq, Repr

/-- Embedding of the validation-error policy of createEnv in
src/core/createEnv.ts: when validation reports failure with a nonempty
error list, a configured handler receives the aggregate message and the
call still returns, while without a handler the aggregate message is
thrown; otherwise the call returns with no handler activity. -/
def coreValidationPhase (validated : Bool × List String × JsObj JsVal)
    (hasHandler : Bool) : CoreOutcome :=
  if ¬ validated.1 ∧ 0 < validated.2.1.length then
    let msg := "Environment validation failed: " ++ String.intercalate ", " validated.2.1
    if hasHandler then .returned validated.2.2 [msg] else .thrown msg
  else .returned validated.2.2 []

/-- Embedding of the processEnv construction of createEnv in
src/core/createEnv.ts: a fresh object receiving first the spread of the
ambient global process env and then the spread of the file-read variables,
so that file values win on key conflicts. -/
def buildProcessEnv (ambient fileVars : JsObj String) : JsObj String :=
  objectAssign ambient fileVars

/-- Embedding of the createEnv pipeline of src/core/createEnv.ts for a given
runtime classification: on the server the env files are read and merged
over the ambient process variables with file values winning, the
client-side filters are applied, and a configured descriptor-table schema
goes through validation with its error policy. The returned triple is the
call outcome, the reader state, and the filtered raw mapping. -/
def createEnvCore (isClient : Bool) (fs : String → Option String)
    (ambient : JsObj String) (st : EnvReader.ReaderState)
    (paths : Option (List String)) (autoReload : Bool)
    (protectedEnv : Option (List String)) (publicPfx : Option String)
    (schema : Option (List (String × Schema.SchemaDef))) (hasHandler : Bool) :
    CoreOutcome × EnvReader.ReaderState × JsObj String :=
  let read := if ¬ isClient then
      EnvReader.readEnvFiles fs ambient st paths none autoReload
    else (([] : JsObj String), st)
  let processEnv := buildProcessEnv ambient read.1
  let filteredEnv := filterEnvVars isClient protectedEnv publicPfx processEnv
  match schema with
  | some sch =>
      (coreValidationPhase (Schema.validateWithCustomSchema filteredEnv sch) hasHandler,
        read.2, filteredEnv)
  | none =>
      (.returned (filteredEnv.map (fun kv => (kv.1, JsVal.vStr kv.2))) [], read.2, filteredEnv)

end CoreCreateEnv

namespace Errors

/-- Embedding of a thrown JS error object, identified by its name (the error
kind set by the constructor) and its message. -/
structure JsError where
  name : String
  message : String
deriving DecidableEq, Repr

/-- Embedding of the EnvSafeError base class of the errors module re-exported
by src/index.ts: name EnvSafeError with the given message. -/
def envSafeError (msg : String) : JsError := ⟨"EnvSafeError", msg⟩

/-- Embedding of the InvalidAccessError class of the errors module: the error
its documentation reserves for reads of undeclared variables. -/
def invalidAccessError (variableName : String) : JsError :=
  ⟨"InvalidAccessError",
    "Attempted to access environment variable \"" ++ variableName ++
      "\" that does not exist or is not defined in the schema."⟩

/-- Embedding of the ServerOnlyAccessError class of the errors module: the
error its documentation reserves for client reads of server-only
variables. -/
def serverOnlyAccessError (variableName : String) : JsError :=
  ⟨"ServerOnlyAccessError",
    "Attempted to access server-only environment variable \"" ++ variableName ++
      "\" from client code."⟩

end Errors

namespace IndexTs

/-- Result of one property read through the Proxy returned by createEnv in
src/index.ts: either the target value (possibly JS undefined) or a thrown
error. -/
inductive ProxyAccess where
  | value (v : Option JsVal)
  | thrown (e : Errors.JsError)
deriving DecidableEq, Repr

/-- Embedding of defaultInvalidAccessHandler from src/index.ts: throws a base
EnvSafeError naming the missing key. -/
def defaultInvalidAccessHandler (key : String) : ProxyAccess :=
  .thrown (Errors.envSafeError
    ("Attempted to access environment variable \"" ++ key ++
      "\" that does not exist or is not defined in the schema."))

/-- Embedding of the get trap of createProxy in src/index.ts: a key absent
from the validated target invokes the invalid-access handler; otherwise,
on a client, a key listed under the shape entry literally named server of
the active schema throws a base EnvSafeError; any other present key is
returned. The serverShapeKeys parameter embeds schema.shape.server, which
is present only when the flat combined schema declares a variable whose
name is literally the word server. -/
def createProxyGet (target : JsObj JsVal) (serverShapeKeys : Option (List String))
    (isServer : Bool) (onInvalidAccess : String → ProxyAccess)
    (prop : String) : ProxyAccess :=
  match getVal target prop with
  | none => onInvalidAccess prop
  | some v =>
      let inServerShape : Bool :=
        match serverShapeKeys with
        | some shape => shape.contains prop
        | none => false
      if ¬ isServer ∧ inServerShape then
        .thrown (Errors.envSafeError
          ("Attempted to access server-only environment variable \"" ++ prop ++
            "\" from client code. This is not allowed for security reasons."))
      else .value (some v)

end IndexTs

namespace EnvTs

/-- Runtime classification used by src/env.ts once it reaches the proxy: node
or browser. -/
inductive TsRuntime where
  | node
  | browser
deriving DecidableEq, Repr

/-- Visibility tag stored with each variable in the global env store of
src/env.ts. -/
inductive EnvTag where
  | server
  | client
  | both
deriving DecidableEq, Repr

/-- One global regex replace of a backslash-escape pair: every occurrence of
a backslash followed by the pattern character becomes the replacement
character, scanning left to right without overlap. -/
def replaceEscape (pat rep : Char) : List Char → List Char
  | [] => []
  | '\\' :: c :: rest =>
      if c = pat then rep :: replaceEscape pat rep rest
      else '\\' :: replaceEscape pat rep (c :: rest)
  | c :: rest => c :: replaceEscape pat rep rest

/-- Embedding of the escape processing of parseEnvContent in the utils module
of src/env.ts (the second document segment of src/src/cli.ts): three
sequential global replaces turning the backslash-n, backslash-r and
backslash-t sequences into the corresponding control characters, in that
order. -/
def unescapeValue (s : String) : String :=
  ⟨replaceEscape 't' '\t' (replaceEscape 'r' '\r' (replaceEscape 'n' '\n' s.data))⟩

/-- Embedding of parseEnvContent from the utils module imported by src/env.ts,
whose source is the second document segment of src/src/cli.ts: splits the
content at newlines, trims each line, skips blanks and comment lines,
extracts key and value around the first equals sign (the same line regex
as EnvReader.parseEnvFile), trims both, strips one matching pair of
surrounding quotes, and processes the backslash escapes. -/
def parseEnvContent (content : String) : JsObj String :=
  (splitNewlines content).foldl
    (fun env line =>
      let trimmedLine := jsTrim line
      if trimmedLine = "" ∨ jsStartsWith trimmedLine "#" then env
      else
        match EnvReader.matchKeyValue trimmedLine with
        | none => env
        | some (rawKey, rawValue) =>
            setVal env (jsTrim rawKey) (unescapeValue (stripMatchingQuotes (jsTrim rawValue))))
    []

/-- Embedding of organizeEnvStore from src/env.ts: each variable is tagged
client or server by the truthy public prefix when one is configured,
server when the protected flag is set, and both otherwise. -/
def organizeEnvStore (envVars : JsObj String) (publicPfx : Option String)
    (isProtected : Bool) (store : JsObj (String × EnvTag)) : JsObj (String × EnvTag) :=
  envVars.foldl
    (fun st kv =>
      let ty : EnvTag :=
        match publicPfx with
        | some p =>
            if p ≠ "" then (if jsStartsWith kv.1 p then .client else .server)
            else if isProtected then .server else .both
        | none => if isProtected then .server else .both
      setVal st kv.1 (kv.2, ty))
    store

/-- Result of one property read through the proxy of createEnvProxy in
src/env.ts: a value (JS undefined for absent keys) or a thrown error. -/
inductive TsAccess where
  | value (v : JsVal)
  | thrown (e : Errors.JsError)
deriving DecidableEq, Repr

/-- Embedding of the get trap of createEnvProxy in src/env.ts: an absent key
returns JS undefined without raising; a server-tagged key read in the
browser throws a plain Error; otherwise the stored string is coerced to a
boolean or number when it looks like one and returned. -/
def createEnvProxyGet (store : JsObj (String × EnvTag)) (runtime : TsRuntime)
    (prop : String) : TsAccess :=
  match getVal store prop with
  | none => .value .vUndef
  | some (value, ty) =>
      if ty = .server ∧ runtime = .browser then
        .thrown ⟨"Error",
          "Cannot access server-side environment variable \x27" ++ prop ++
            "\x27 from client"⟩
      else if jsToLower value = "true" then .value (.vBool true)
      else if jsToLower value = "false" then .value (.vBool false)
      else
        match jsNumberInt value with
        | some n => if jsTrim value ≠ "" then .value (.vNum n) else .value (.vStr value)
        | none => .value (.vStr value)

/-- Observable completion of a call to createEnv in src/env.ts: the global
store and watcher list it leaves behind, whether the validation-error
handler was invoked, whether a validation failure was only logged to the
console, and the fact that the call returned a proxy (that function has no
throwing path of its own). -/
structure TsOutcome where
  envStore : JsObj (String × EnvTag)
  watchers : List String
  handlerCalled : Bool
  loggedValidationError : Bool
  returnsProxy : Bool
deriving DecidableEq, Repr

/-- Embedding of createEnv from src/env.ts: resets the global store, closes
every previously registered watcher, reads the candidate files in order
with later files overriding earlier ones (registering one chokidar watcher
per read file when watching), merges the ambient process variables over
the file variables on node, runs the external schema through parse with
failures passed to the configured handler or logged to the console (never
thrown), organizes the store, and returns the proxy. The external schema
is embedded as the predicate telling whether its parse call succeeds. -/
def createEnvTs (fs : String → Option String) (procEnv : JsObj String)
    (runtime : TsRuntime) (paths : Option (List String)) (watch : Bool)
    (schemaParseOk : Option (JsObj String → Bool)) (hasHandler : Bool)
    (publicPfx : Option String) (isProtected : Bool)
    (_prevWatchers : List String) : TsOutcome :=
  let defaultPaths := [".env", ".env.local", ".env.development", ".env.production"]
  let files := paths.getD defaultPaths
  let read :=
    if runtime = .browser then (([] : JsObj String), ([] : List String))
    else
      files.foldl
        (fun acc file =>
          match fs file with
          | none => acc
          | some content =>
              (objectAssign acc.1 (parseEnvContent content),
                if watch then acc.2 ++ [file] else acc.2))
        (([] : JsObj String), ([] : List String))
  let envVars := if runtime = .node then objectAssign read.1 procEnv else read.1
  let validation :=
    match schemaParseOk with
    | some ok => if ok envVars then (false, false)
        else if hasHandler then (true, false) else (false, true)
    | none => (false, false)
  { envStore := organizeEnvStore envVars publicPfx isProtected []
    watchers := read.2
    handlerCalled := validation.1
    loggedValidationError := validation.2
    returnsProxy := true }

end EnvTs

/-!
Supporting lemmas about the JS object model and the expansion scanners,
followed by the theorems settling the specification claims.
-/

@[simp] theorem getVal_nil {α : Type} (k : String) : getVal ([] : JsObj α) k = none := rfl

@[simp] theorem getVal_cons {α : Type} (k₁ k : String) (v₁ : α) (rest : JsObj α) :
    getVal ((k₁, v₁) :: rest) k = if k₁ = k then some v₁ else getVal rest k := rfl

@[simp] theorem setVal_nil {α : Type} (k : String) (v : α) :
    setVal ([] : JsObj α) k v = [(k, v)] := rfl

@[simp] theorem setVal_cons {α : Type} (k₁ k : String) (v₁ v : α) (rest : JsObj α) :
    setVal ((k₁, v₁) :: rest) k v =
      if k₁ = k then (k₁, v) :: rest else (k₁, v₁) :: setVal rest k v := rfl

theorem getVal_setVal_self {α : Type} (m : JsObj α) (k : String) (v : α) :
    getVal (setVal m k v) k = some v := by
  induction m with
  | nil => simp [setVal, getVal]
  | cons hd tl ih =>
      obtain ⟨k₁, v₁⟩ := hd
      by_cases h : k₁ = k <;> simp [setVal, getVal, h, ih]

theorem getVal_setVal_ne {α : Type} (m : JsObj α) (k k₂ : String) (v : α)
    (h : k ≠ k₂) : getVal (setVal m k v) k₂ = getVal m k₂ := by
  induction m with
  | nil => simp [setVal, getVal, h]
  | cons hd tl ih =>
      obtain ⟨k₁, v₁⟩ := hd
      by_cases h₁ : k₁ = k
      · subst h₁; simp [setVal, getVal, h]
      · simp [setVal, getVal, h₁, ih]

@[simp] theorem objectAssign_nil {α : Type} (m : JsObj α) : objectAssign m [] = m := rfl

theorem objectAssign_cons {α : Type} (m : JsObj α) (k : String) (v : α)
    (rest : JsObj α) :
    objectAssign m ((k, v) :: rest) = objectAssign (setVal m k v) rest := rfl

theorem getVal_objectAssign_not_mem {α : Type} (m additions : JsObj α) (k : String)
    (h : k ∉ keysOf additions) : getVal (objectAssign m additions) k = getVal m k := by
  induction additions generalizing m with
  | nil => rfl
  | cons hd tl ih =>
      obtain ⟨k₁, v₁⟩ := hd
      simp only [keysOf, List.map_cons, List.mem_cons, not_or] at h
      rw [objectAssign_cons, ih _ (by simpa [keysOf] using h.2),
        getVal_setVal_ne _ _ _ _ (fun hEq => h.1 hEq.symm)]

theorem getVal_objectAssign_of_getVal {α : Type} (m additions : JsObj α) (k : String)
    (v : α) (hnd : (keysOf additions).Nodup) (h : getVal additions k = some v) :
    getVal (objectAssign m additions) k = some v := by
  induction additions generalizing m with
  | nil => simp [getVal] at h
  | cons hd tl ih =>
      obtain ⟨k₁, v₁⟩ := hd
      simp only [keysOf, List.map_cons, List.nodup_cons] at hnd
      by_cases hk : k₁ = k
      · subst hk
        rw [getVal_cons, if_pos rfl] at h
        obtain rfl : v₁ = v := Option.some.inj h
        rw [objectAssign_cons,
          getVal_objectAssign_not_mem _ _ _ (by simpa [keysOf] using hnd.1),
          getVal_setVal_self]
      · simp only [getVal, if_neg hk] at h
        rw [objectAssign_cons]
        exact ih _ hnd.2 h

theorem keysOf_filter {α : Type} (q : String × α → Bool) (p : String → Bool)
    (hpq : ∀ kv, q kv = p kv.1) (m : JsObj α) :
    keysOf (m.filter q) = (keysOf m).filter p := by
  induction m with
  | nil => rfl
  | cons hd tl ih =>
      obtain ⟨k, v⟩ := hd
      have hq := hpq (k, v)
      by_cases h : p k <;>
        simp [keysOf, List.filter_cons, hq, h] <;> simpa [keysOf] using ih

theorem expandAux_nil (env : JsObj String) (fuel : Nat) :
    Parser.expandAux env fuel [] = [] := by
  cases fuel <;> rfl

theorem takeWhile_ne_rbrace (l l₂ : List Char) (h : ∀ c ∈ l, c ≠ '}') :
    (l ++ '}' :: l₂).takeWhile (fun c => c ≠ '}') = l := by
  induction l with
  | nil => simp
  | cons c cs ih =>
      have hc : c ≠ '}' := h c (List.mem_cons_self c cs)
      simp only [List.cons_append, List.takeWhile]
      rw [decide_eq_true hc]
      exact congrArg (List.cons c) (ih (fun d hd => h d (List.mem_cons_of_mem c hd)))

theorem dropWhile_ne_rbrace (l l₂ : List Char) (h : ∀ c ∈ l, c ≠ '}') :
    (l ++ '}' :: l₂).dropWhile (fun c => c ≠ '}') = '}' :: l₂ := by
  induction l with
  | nil => simp
  | cons c cs ih =>
      have hc : c ≠ '}' := h c (List.mem_cons_self c cs)
      simp only [List.cons_append, List.dropWhile]
      rw [decide_eq_true hc]
      exact ih (fun d hd => h d (List.mem_cons_of_mem c hd))

theorem expandAux_braced (env : JsObj String) (fuel : Nat) (inner l₂ : List Char)
    (hinner : ∀ c ∈ inner, c ≠ '}') (hne : inner ≠ []) :
    Parser.expandAux env (fuel + 1) ('$' :: '{' :: (inner ++ '}' :: l₂)) =
      Parser.handleBracketed env inner ++ Parser.expandAux env fuel l₂ := by
  simp only [Parser.expandAux]
  rw [takeWhile_ne_rbrace _ _ hinner, dropWhile_ne_rbrace _ _ hinner]
  simp [List.isEmpty_iff, hne]

theorem string_data_append (a b : String) : (a ++ b).data = a.data ++ b.data := rfl

theorem data_default_token (name dflt : String) :
    ("$\x7b" ++ name ++ ":-" ++ dflt ++ "\x7d").data =
      '$' :: '{' :: ((name.data ++ ':' :: '-' :: dflt.data) ++ '}' :: []) := by
  rw [string_data_append, string_data_append, string_data_append, string_data_append]
  rw [show ("$\x7b" : String).data = ['$', '{'] from rfl,
    show (":-" : String).data = [':', '-'] from rfl,
    show ("\x7d" : String).data = ['}'] from rfl]
  simp

theorem data_plain_token (name : String) :
    ("$\x7b" ++ name ++ "\x7d").data = '$' :: '{' :: (name.data ++ '}' :: []) := by
  rw [string_data_append, string_data_append]
  rw [show ("$\x7b" : String).data = ['$', '{'] from rfl,
    show ("\x7d" : String).data = ['}'] from rfl]
  simp

/-- For every expansion scope and every well-formed name and default text, the
parser-module expander maps the braced default-clause token to the bound
value when the name is in scope and to the default text otherwise. -/
theorem expand_braced_with_default (env : JsObj String) (name dflt : String)
    (hsplit : Parser.splitColonDash (name.data ++ ':' :: '-' :: dflt.data) =
      [name.data, dflt.data])
    (hname : ∀ c ∈ name.data, c ≠ '}') (hdflt : ∀ c ∈ dflt.data, c ≠ '}') :
    Parser.expandEnvironmentVariables ("$\x7b" ++ name ++ ":-" ++ dflt ++ "\x7d") env =
      ((getVal env name).getD dflt) := by
  have hall : ∀ c ∈ name.data ++ ':' :: '-' :: dflt.data, c ≠ '}' := by
    intro c hc
    rcases List.mem_append.1 hc with h₁ | h₂
    · exact hname c h₁
    · rcases h₂ with _ | ⟨_, h₂⟩
      · decide
      · rcases h₂ with _ | ⟨_, h₂⟩
        · decide
        · exact hdflt c h₂
  unfold Parser.expandEnvironmentVariables
  rw [data_default_token, List.length_cons, List.length_cons,
    expandAux_braced env _ _ _ hall (by simp), expandAux_nil, List.append_nil]
  simp only [Parser.handleBracketed, hsplit]
  have hmk : (⟨name.data⟩ : String) = name := rfl
  cases hv : getVal env name <;> simp [hv, hmk]

/-- For every expansion scope and every well-formed name, the parser-module
expander maps the plain braced token to the bound value when the name is
in scope and leaves the token text unchanged otherwise. -/
theorem expand_braced_plain (env : JsObj String) (name : String)
    (hsplit : Parser.splitColonDash name.data = [name.data])
    (hname : ∀ c ∈ name.data, c ≠ '}') (hne : name.data ≠ []) :
    Parser.expandEnvironmentVariables ("$\x7b" ++ name ++ "\x7d") env =
      ((getVal env name).getD ("$\x7b" ++ name ++ "\x7d")) := by
  unfold Parser.expandEnvironmentVariables
  rw [data_plain_token, List.length_cons, List.length_cons,
    expandAux_braced env _ _ _ hname hne, expandAux_nil, List.append_nil]
  simp only [Parser.handleBracketed, hsplit]
  have hmk : (⟨name.data⟩ : String) = name := rfl
  cases hv : getVal env name with
  | none => exact congrArg String.mk (data_plain_token name).symm
  | some v => simp [hmk, hv]

theorem validate_ok_iff_no_errors (env : JsObj String)
    (sch : List (String × Schema.SchemaDef)) :
    (Schema.validateWithCustomSchema env sch).1 =
      ((Schema.validateWithCustomSchema env sch).2.1).isEmpty := rfl

/-- Claim C1: evaluation of the Source Reader at the overlap scenario of the
claim. With a filesystem where the generic env file defines X as 1 and the
local env file defines X as 2, readEnvFiles over the default pattern list
resolves X to 1: getEnvFiles sorts the patterns by ascending priority
number, so the local file (priority one) is merged first and the generic
file (priority eight, merged last) overrides it. loadEnvFile of
src/index.ts resolves the same filesystem to 2, as the claim states. -/
theorem claim1_default_pattern_precedence :
    (getVal (EnvReader.readEnvFiles
        (fun f => if f = ".env" then some "X=1" else
          if f = ".env.local" then some "X=2" else none)
        [] EnvReader.initialReaderState none none false).1 "X" = some "1") ∧
    ("1" : String) ≠ "2" ∧
    (getVal (IndexTs.loadEnvFile
        (fun f => if f = ".env" then some "X=1" else
          if f = ".env.local" then some "X=2" else none)
        [] "development" true true) "X" = some "2") :=
  ⟨rfl, by decide, rfl⟩

/-- Claim C2: for every raw mapping whose key set is a permutation of A,
PUB_A, B, filtering in a client-classified context with protected list A
and public prefix PUB underscore leaves exactly the key PUB_A: the
protected key is removed although it fails the prefix test anyway, and B
is removed for not matching the prefix. -/
theorem claim2_client_visibility (env : JsObj String)
    (hkeys : (keysOf env).Perm ["A", "PUB_A", "B"]) :
    keysOf (CoreCreateEnv.filterEnvVars true (some ["A"]) (some "PUB_") env) =
      ["PUB_A"] := by
  have h1 : CoreCreateEnv.filterEnvVars true (some ["A"]) (some "PUB_") env =
      (env.filter (fun kv => ¬ (["A"].contains kv.1))).filter
        (fun kv => jsStartsWith kv.1 "PUB_") := by
    simp [CoreCreateEnv.filterEnvVars]
  rw [h1,
    keysOf_filter _ (fun k => jsStartsWith k "PUB_") (fun kv => rfl),
    keysOf_filter _ (fun k => ¬ (["A"].contains k)) (fun kv => rfl),
    List.filter_filter]
  exact List.Perm.eq_singleton ((hkeys.filter _).trans (by decide))

/-- Claim C2 witness: the filter applied to the concrete mapping of the
claim. -/
theorem claim2_client_visibility_witness :
    ((keysOf ([("A", "1"), ("PUB_A", "2"), ("B", "3")] : JsObj String)).Perm
      ["A", "PUB_A", "B"]) ∧
    keysOf (CoreCreateEnv.filterEnvVars true (some ["A"]) (some "PUB_")
      [("A", "1"), ("PUB_A", "2"), ("B", "3")]) = ["PUB_A"] :=
  ⟨by decide, claim2_client_visibility _ (by decide)⟩

/-- Claim C3 counterexample: the Source Reader inline expansion of
parseEnvFile substitutes the empty string, not the original token, for a
braced reference whose name is bound nowhere: parsing a line binding A to
the unresolvable braced FOO reference yields the empty string for A. -/
theorem claim3_counterexample :
    EnvReader.parseEnvFile [] "A=$\x7bFOO\x7d" = [("A", "")] ∧ ("" : String) ≠ "$\x7bFOO\x7d" :=
  ⟨rfl, by decide⟩

/-- Claim C3 amended: the parser-module expander of
expandEnvironmentVariables leaves an unresolvable braced or simple
reference unchanged (no error, no empty-string substitution), for every
well-formed name and every scope lacking it; the Source Reader inline
expansion of parseEnvFile instead substitutes the empty string for an
unresolvable braced reference. -/
theorem claim3_amended (env procEnv : JsObj String) (name : String)
    (hsplit : Parser.splitColonDash name.data = [name.data])
    (hname : ∀ c ∈ name.data, c ≠ '}') (hne : name.data ≠ [])
    (habsent : getVal env name = none)
    (hfoo : getVal env "FOO" = none) (hfooProc : getVal procEnv "FOO" = none) :
    (Parser.expandEnvironmentVariables ("$\x7b" ++ name ++ "\x7d") env =
      "$\x7b" ++ name ++ "\x7d") ∧
    Parser.expandEnvironmentVariables "$FOO" env = "$FOO" ∧
    Parser.expandEnvironmentVariables "a=$\x7bFOO\x7d/b" env = "a=$\x7bFOO\x7d/b" ∧
    EnvReader.parseEnvFile procEnv "A=$\x7bFOO\x7d" = [("A", "")] := by
  refine ⟨?_, ?_, ?_, ?_⟩
  · rw [expand_braced_plain env name hsplit hname hne, habsent]
    rfl
  · unfold Parser.expandEnvironmentVariables
    rw [show ("$FOO" : String).data = ['$', 'F', 'O', 'O'] from rfl]
    simp [Parser.expandAux, Parser.isWordChar,
      show (⟨['F', 'O', 'O']⟩ : String) = "FOO" from rfl, hfoo]
  · unfold Parser.expandEnvironmentVariables
    rw [show ("a=$\x7bFOO\x7d/b" : String).data =
      ['a', '=', '$', '{', 'F', 'O', 'O', '}', '/', 'b'] from rfl]
    simp [Parser.expandAux, Parser.handleBracketed, Parser.splitColonDash,
      show (⟨['F', 'O', 'O']⟩ : String) = "FOO" from rfl, hfoo]
  · have hlk : EnvReader.fallbackLookup [] procEnv "FOO" = "" := by
      simp [EnvReader.fallbackLookup, hfooProc]
    have hstep : EnvReader.parseEnvFile procEnv "A=$\x7bFOO\x7d" =
        [("A", ⟨(EnvReader.fallbackLookup [] procEnv "FOO").data ++ []⟩)] := rfl
    rw [hstep, hlk]
    rfl

/-- Claim C3 amended witness: the amended statement applied with the name FOO
against the empty file scope and a process scope binding only BAR. -/
theorem claim3_amended_witness :
    Parser.expandEnvironmentVariables "$\x7bFOO\x7d" [("BAR", "1")] = "$\x7bFOO\x7d" ∧
    EnvReader.parseEnvFile [("BAR", "1")] "A=$\x7bFOO\x7d" = [("A", "")] :=
  ⟨(claim3_amended [("BAR", "1")] [("BAR", "1")] "FOO" (by decide) (by decide)
      (by decide) rfl rfl rfl).1,
    (claim3_amended [("BAR", "1")] [("BAR", "1")] "FOO" (by decide) (by decide)
      (by decide) rfl rfl rfl).2.2.2⟩

/-- Claim C4: for every expansion scope and every well-formed braced token
with a default clause, the parser-module expander yields the default text
when the name is absent from the scope and the bound value when it is
present, in particular the empty string (not the default) for a name bound
to the empty string. -/
theorem claim4_default_clause (env : JsObj String) (name dflt : String)
    (hsplit : Parser.splitColonDash (name.data ++ ':' :: '-' :: dflt.data) =
      [name.data, dflt.data])
    (hname : ∀ c ∈ name.data, c ≠ '}') (hdflt : ∀ c ∈ dflt.data, c ≠ '}') :
    (getVal env name = none →
      Parser.expandEnvironmentVariables ("$\x7b" ++ name ++ ":-" ++ dflt ++ "\x7d") env =
        dflt) ∧
    (∀ v, getVal env name = some v →
      Parser.expandEnvironmentVariables ("$\x7b" ++ name ++ ":-" ++ dflt ++ "\x7d") env =
        v) := by
  have h := expand_braced_with_default env name dflt hsplit hname hdflt
  constructor
  · intro hv; rw [h, hv]; rfl
  · intro v hv; rw [h, hv]; rfl

/-- Claim C4 witness: the default-clause token with the name VAR and the
default text applied to a scope lacking VAR and to a scope binding VAR to
the empty string. -/
theorem claim4_default_clause_witness :
    Parser.expandEnvironmentVariables "$\x7bVAR:-default\x7d" [] = "default" ∧
    Parser.expandEnvironmentVariables "$\x7bVAR:-default\x7d" [("VAR", "")] = "" :=
  ⟨(claim4_default_clause [] "VAR" "default" (by decide) (by decide)
      (by decide)).1 rfl,
    (claim4_default_clause [("VAR", "")] "VAR" "default" (by decide) (by decide)
      (by decide)).2 "" rfl⟩

/-- Claim C5 counterexample: a descriptor entry that is both required and
carries a default fails validation when the raw value is missing: the
required check runs first and records the missing-variable error without
consulting the default, so the claimed successful validation does not
happen. -/
theorem claim5_counterexample :
    Schema.validateWithCustomSchema []
      [("K", { type := "string", required := true, default := some (.vStr "d") })] =
      (false, ["Missing required environment variable: K"], []) := rfl

/-- Claim C5 amended: for a missing raw value the validator records the
missing-variable error whenever the entry is required, regardless of any
declared default; the default fills the typed mapping only when the entry
is not required. -/
theorem claim5_amended (env : JsObj String) (key : String) (d : Schema.SchemaDef)
    (hmiss : getVal env key = none) :
    (d.required = true →
      Schema.validateWithCustomSchema env [(key, d)] =
        (false, ["Missing required environment variable: " ++ key], [])) ∧
    (d.required = false → ∀ v, d.default = some v →
      Schema.validateWithCustomSchema env [(key, d)] = (true, [], [(key, v)])) := by
  constructor
  · intro hreq
    simp [Schema.validateWithCustomSchema, hmiss, hreq]
  · intro hreq v hd
    simp [Schema.validateWithCustomSchema, hmiss, hreq, hd]

/-- Claim C5 amended witness: the amended statement applied to a required
entry with a default and to an optional entry with a default, both with
the raw value missing. -/
theorem claim5_amended_witness :
    Schema.validateWithCustomSchema []
      [("K", { type := "string", required := true, default := some (.vStr "d") })] =
      (false, ["Missing required environment variable: K"], []) ∧
    Schema.validateWithCustomSchema []
      [("K", { type := "string", required := false, default := some (.vStr "d") })] =
      (true, [], [("K", JsVal.vStr "d")]) :=
  ⟨(claim5_amended [] "K"
      { type := "string", required := true, default := some (.vStr "d") } rfl).1 rfl,
    (claim5_amended [] "K"
      { type := "string", required := false, default := some (.vStr "d") } rfl).2
      rfl (JsVal.vStr "d") rfl⟩

/-- Claim C6 counterexample: boolean coercion records no error for a raw
string in neither literal set: the value banana coerces silently to false
and validation succeeds, where the claim requires an error for that
key. -/
theorem claim6_counterexample :
    Schema.validateWithCustomSchema [("FLAG", "banana")]
      [("FLAG", { type := "boolean" })] =
      (true, [], [("FLAG", JsVal.vBool false)]) ∧
    (¬ jsToLower "banana" ∈ ["true", "1", "yes"]) ∧
    (¬ jsToLower "banana" ∈ ["false", "0", "no"]) :=
  ⟨rfl, by decide, by decide⟩

/-- Claim C6 amended: boolean coercion lower-cases the raw string and returns
true exactly when it falls in the truthy set of the literals true, one and
yes, and false for every other string including the falsy literals; no
error is ever recorded by the boolean branch. -/
theorem claim6_amended (key s : String) (req : Bool) (dflt : Option JsVal) :
    Schema.validateWithCustomSchema [(key, s)]
      [(key, Schema.SchemaDef.mk "boolean" req dflt none)] =
      (true, [], [(key, JsVal.vBool (["true", "1", "yes"].contains (jsToLower s)))]) := by
  have hconv : Schema.convertValue (some s) "boolean" =
      .ok (.vBool (["true", "1", "yes"].contains (jsToLower s))) := rfl
  simp [Schema.validateWithCustomSchema, hconv]

/-- Claim C7 counterexample: the resolution entry point of src/env.ts does
not raise on validation failure without a handler: with an external schema
whose parse always fails and no handler configured, the call logs the
failure to the console and still returns the accessor proxy. -/
theorem claim7_counterexample :
    ((EnvTs.createEnvTs (fun _ => none) [("A", "1")] .node none false
        (some (fun _ => false)) false none false []).returnsProxy = true) ∧
    ((EnvTs.createEnvTs (fun _ => none) [("A", "1")] .node none false
        (some (fun _ => false)) false none false []).loggedValidationError = true) ∧
    ((EnvTs.createEnvTs (fun _ => none) [("A", "1")] .node none false
        (some (fun _ => false)) false none false []).handlerCalled = false) :=
  ⟨rfl, rfl, rfl⟩

/-- Claim C7 amended: in the core resolution entry point, whenever descriptor
validation produces a nonempty error list, the call throws the aggregate
message when no handler is configured and otherwise passes the aggregate
message to the handler and returns without throwing; the src/env.ts
variant instead logs to the console and returns an accessor even without a
handler. -/
theorem claim7_amended (env : JsObj String) (sch : List (String × Schema.SchemaDef))
    (herr : (Schema.validateWithCustomSchema env sch).2.1 ≠ []) :
    (CoreCreateEnv.coreValidationPhase (Schema.validateWithCustomSchema env sch)
        false =
      .thrown ("Environment validation failed: " ++
        String.intercalate ", " (Schema.validateWithCustomSchema env sch).2.1)) ∧
    (CoreCreateEnv.coreValidationPhase (Schema.validateWithCustomSchema env sch)
        true =
      .returned (Schema.validateWithCustomSchema env sch).2.2
        ["Environment validation failed: " ++
          String.intercalate ", " (Schema.validateWithCustomSchema env sch).2.1]) := by
  have hfalse : (Schema.validateWithCustomSchema env sch).1 = false := by
    rw [validate_ok_iff_no_errors]
    simpa using herr
  have hlen : 0 < (Schema.validateWithCustomSchema env sch).2.1.length :=
    List.length_pos.mpr herr
  constructor <;> simp [CoreCreateEnv.coreValidationPhase, hfalse, hlen]

/-- Claim C7 amended witness: the amended statement applied to a schema with
one required key and an empty raw mapping. -/
theorem claim7_amended_witness :
    CoreCreateEnv.coreValidationPhase
      (Schema.validateWithCustomSchema [] [("K", { type := "string", required := true })])
      false =
      .thrown
        "Environment validation failed: Missing required environment variable: K" := by
  have h := (claim7_amended [] [("K", { type := "string", required := true })]
    (by decide)).1
  simpa using h

/-- Claim C8: evaluation of the guarded accessors at the two failure modes.
In the src/index.ts proxy over a client context, reading a server-only key
stripped from the validated target and reading a wholly absent key both
throw the base EnvSafeError kind with the generic not-found message; the
dedicated InvalidAccessError and ServerOnlyAccessError kinds defined by
the errors module are never produced, so the two failure modes are not
distinguishable by error kind; the src/env.ts proxy returns undefined for
an absent key instead of raising. -/
theorem claim8_error_kind_collapse :
    (IndexTs.createProxyGet [("PUB", JsVal.vStr "x")] none false
        IndexTs.defaultInvalidAccessHandler "SECRET" =
      .thrown (Errors.envSafeError
        "Attempted to access environment variable \"SECRET\" that does not exist or is not defined in the schema.")) ∧
    (IndexTs.createProxyGet [("PUB", JsVal.vStr "x")] none false
        IndexTs.defaultInvalidAccessHandler "Z" =
      .thrown (Errors.envSafeError
        "Attempted to access environment variable \"Z\" that does not exist or is not defined in the schema.")) ∧
    (Errors.envSafeError "m").name = "EnvSafeError" ∧
    (Errors.invalidAccessError "SECRET").name = "InvalidAccessError" ∧
    (Errors.serverOnlyAccessError "SECRET").name = "ServerOnlyAccessError" ∧
    EnvTs.createEnvProxyGet [("SECRET", ("s", .server)), ("PUB_A", ("1", .client))]
      .browser "Z" = .value .vUndef :=
  ⟨rfl, rfl, rfl, rfl, rfl, rfl⟩

/-- Claim C9: evaluation of the watcher registry across two auto-reloading
invocations of readEnvFiles over a filesystem with one env file. The first
call registers one watcher; the second call registers a second watcher for
the same file while the first remains active, because closeWatcher matches
watchers by a path property that Node watcher objects do not expose, so
the claimed teardown of previously registered watchers never happens. -/
theorem claim9_watcher_accumulation :
    ((EnvReader.readEnvFiles (fun f => if f = ".env" then some "A=1" else none) []
        EnvReader.initialReaderState none none true).2.watchers =
      [EnvReader.Watcher.mk ".env" none]) ∧
    ((EnvReader.readEnvFiles (fun f => if f = ".env" then some "A=1" else none) []
        (EnvReader.readEnvFiles (fun f => if f = ".env" then some "A=1" else none) []
          EnvReader.initialReaderState none none true).2 none none true).2.watchers =
      [EnvReader.Watcher.mk ".env" none, EnvReader.Watcher.mk ".env" none]) :=
  ⟨rfl, rfl⟩

/-- Claim C10: in the core resolution entry point, the merged process
mapping takes the file-sourced value for every key the loaded file
variables define, overriding any same-named ambient process value. -/
theorem claim10_file_overrides_ambient (ambient fileVars : JsObj String)
    (k v : String) (hnd : (keysOf fileVars).Nodup)
    (hfile : getVal fileVars k = some v) :
    getVal (CoreCreateEnv.buildProcessEnv ambient fileVars) k = some v :=
  getVal_objectAssign_of_getVal ambient fileVars k v hnd hfile

/-- Claim C10 witness: the merge applied to an ambient mapping and a file
mapping that both bind X. -/
theorem claim10_file_overrides_ambient_witness :
    getVal (CoreCreateEnv.buildProcessEnv [("X", "ambient")] [("X", "file")]) "X" =
      some "file" :=
  claim10_file_overrides_ambient [("X", "ambient")] [("X", "file")] "X" "file"
    (by decide) rfl

end Mrenv
